import Mathlib

/-!
Shallow embedding of `src/cadastro_usuario.py` (classes `Usuario` and
`SistemaCadastro`), together with proofs about the claims of the
specification.  Python lists of `Usuario` objects become Lean lists,
the mutation of `self.usuarios` becomes explicit state passing, file
contents become `String`/`Option String` values, and the `random`
choices become explicit parameters.  The display (`print`) and log-file
side effects carry no registry state and are not modelled.
-/

namespace Cadastro

/-- One user record, class `Usuario` (lines 18-25): fields `nome` and `email`. -/
structure Usuario where
  nome : String
  email : String
deriving DecidableEq

/-- Characters accepted by the local part `[a-zA-Z0-9._%+-]` of the e-mail
pattern (line 39).  `Char.isAlpha`/`Char.isDigit` are exactly the ASCII
ranges `a-zA-Z` / `0-9`. -/
def isLocalChar (c : Char) : Bool :=
  c.isAlpha || c.isDigit || c = '.' || c = '_' || c = '%' || c = '+' || c = '-'

/-- Characters accepted by the domain part `[a-zA-Z0-9.-]` of the pattern. -/
def isDomainChar (c : Char) : Bool :=
  c.isAlpha || c.isDigit || c = '.' || c = '-'

/-- The final label `[a-zA-Z]{2,}`: two or more ASCII letters. -/
def isTld (cs : List Char) : Bool :=
  decide (2 ≤ cs.length) && cs.all Char.isAlpha

/-- What must follow the domain: the literal dot of `\.` and then the final
label reaching the end of the input. -/
def afterPonto : List Char → Bool
  | [] => false
  | a :: rest => a == '.' && isTld rest

/-- Backtracking match of `[a-zA-Z0-9.-]+\.[a-zA-Z]{2,}` against the whole of
`cs`: some split point `i ≥ 1` gives a non-empty domain, a literal dot and a
final label that reaches the end of the input. -/
def domainMatch (cs : List Char) : Bool :=
  (List.range cs.length).any fun i =>
    decide (1 ≤ i) && (cs.take i).all isDomainChar && afterPonto (cs.drop i)

/-- What must follow the local part: the literal `@` and then the domain
part of the pattern. -/
def afterArroba : List Char → Bool
  | [] => false
  | a :: rest => a == '@' && domainMatch rest

/-- Full match of the pattern `^[a-zA-Z0-9._%+-]+@[a-zA-Z0-9.-]+\.[a-zA-Z]{2,}$`
against the whole of `cs` (the `$` treated as true end of input; the
end-of-string-newline allowance of Python's `$` is added in
`validar_email`).  A backtracking regex match of this pattern is exactly
the existence of a decomposition local-part / `@` / domain / `.` / label. -/
def matchesPat (cs : List Char) : Bool :=
  (List.range cs.length).any fun i =>
    decide (1 ≤ i) && (cs.take i).all isLocalChar && afterArroba (cs.drop i)

/-- Method `validar_email` (lines 37-40): `re.match` of the pattern above.
The pattern starts with `^` and ends with `$`; in Python (without
`re.MULTILINE`) `$` matches at the end of the string or just before a
single newline that ends the string. -/
def validar_email (s : String) : Bool :=
  matchesPat s.data ||
    (s.data.getLast? == some '\n' && matchesPat s.data.dropLast)

/-- Whitespace as stripped by Python's `str.strip()` (ASCII part; the
non-ASCII Unicode space code points Python also strips are irrelevant to
every input considered here). -/
def pyIsSpace (c : Char) : Bool :=
  c = ' ' || c = '\t' || c = '\n' || c = '\r' || c = '\x0b' || c = '\x0c'

/-- Method `validar_nome` (lines 42-44): `bool(nome.strip())`, i.e. the name
keeps some non-whitespace character after stripping. -/
def validar_nome (s : String) : Bool :=
  s.data.any fun c => !pyIsSpace c

/-- Outcome reported by `cadastrar_usuario`: which of the three error
messages was printed, or success. -/
inductive CadastroResultado where
  | invalidName
  | invalidEmail
  | duplicateEmail
  | ok
deriving DecidableEq

/-- Method `cadastrar_usuario` (lines 80-99): validate the name, then the
e-mail, then reject a duplicate e-mail; otherwise append the new record.
Returns the reported outcome and the new store (the `salvar_usuarios` and
log side effects happen exactly on the `ok` path). -/
def cadastrar_usuario (nome email : String) (us : List Usuario) :
    CadastroResultado × List Usuario :=
  if !validar_nome nome then (.invalidName, us)
  else if !validar_email email then (.invalidEmail, us)
  else if us.any (fun u => u.email == email) then (.duplicateEmail, us)
  else (.ok, us ++ [⟨nome, email⟩])

/-- Method `apagar_usuario` (lines 113-123): remove the first record whose
e-mail equals `email` exactly; report success iff one was found. -/
def apagar_usuario (email : String) : List Usuario → Bool × List Usuario
  | [] => (false, [])
  | u :: rest =>
    if u.email == email then (true, rest)
    else
      let r := apagar_usuario email rest
      (r.1, u :: r.2)

/-- The new-name assignment of `atualizar_usuario` (line 141-142):
`if novo_nome and self.validar_nome(novo_nome): usuario.nome = novo_nome`.
`novo_nome` is `None` or a string; Python truthiness makes `None` and `""`
keep the old name. -/
def nomeAtualizado (novo_nome : Option String) (antigo : String) : String :=
  match novo_nome with
  | some nn => if nn ≠ "" && validar_nome nn then nn else antigo
  | none => antigo

/-- The new-e-mail assignment of `atualizar_usuario` (line 143-144), same
shape with `validar_email`. -/
def emailAtualizado (novo_email : Option String) (antigo : String) : String :=
  match novo_email with
  | some ne => if ne ≠ "" && validar_email ne then ne else antigo
  | none => antigo

/-- Method `atualizar_usuario` (lines 137-151): find the first record whose
e-mail equals `email`; update its fields per the two conditional
assignments and report success (the save and log happen on that path);
report failure with the store unchanged when no record matches. -/
def atualizar_usuario (email : String) (novo_nome novo_email : Option String) :
    List Usuario → Bool × List Usuario
  | [] => (false, [])
  | u :: rest =>
    if u.email == email then
      (true, ⟨nomeAtualizado novo_nome u.nome, emailAtualizado novo_email u.email⟩ :: rest)
    else
      let r := atualizar_usuario email novo_nome novo_email rest
      (r.1, u :: r.2)

/-- A character that forces `csv.writer` (QUOTE_MINIMAL) to quote a field:
the delimiter, the quote character, or a character of the line
terminator `\r\n`. -/
def specialChar (c : Char) : Bool :=
  c = ',' || c = '"' || c = '\r' || c = '\n'

/-- Quote-escaping inside a quoted csv field: each `"` is doubled. -/
def escapeChars : List Char → List Char
  | [] => []
  | c :: cs => if c = '"' then '"' :: '"' :: escapeChars cs else c :: escapeChars cs

/-- One csv field as `csv.writer` emits it under QUOTE_MINIMAL: quoted with
doubled quotes when it contains a special character, verbatim otherwise. -/
def quoteFieldChars (f : List Char) : List Char :=
  if f.any specialChar then '"' :: (escapeChars f ++ ['"']) else f

/-- One data row as `DictWriter.writerow` emits it for
`{"Nome": nome, "Email": email}` with `fieldnames=["Nome", "Email"]` and
the default line terminator `\r\n`. -/
def rowChars (u : Usuario) : List Char :=
  quoteFieldChars u.nome.data ++ ',' :: (quoteFieldChars u.email.data ++ ['\r', '\n'])

/-- Method `salvar_usuarios` (lines 65-78), csv branch: the full file
content written to `DATA_FILE_CSV` — `writeheader()` then one row per
record. -/
def salvarChars (us : List Usuario) : List Char :=
  "Nome,Email\r\n".data ++ (us.map rowChars).flatten

/-- The csv file produced by `salvar_usuarios` for store `us`, as a string. -/
def salvar_usuarios (us : List Usuario) : String :=
  (salvarChars us).asString

/-- Python's universal-newlines translation, applied to everything read
through a text-mode handle opened with the default `newline=None` — as
`carregar_usuarios` does (line 52, no `newline=''`): every `\r\n` and
every lone `\r` becomes `\n` before the csv reader sees the text, also
inside quoted fields. -/
def univNewlines : List Char → List Char
  | [] => []
  | [c] => [if c = '\r' then '\n' else c]
  | c :: c2 :: cs =>
    if c = '\r' then
      if c2 = '\n' then '\n' :: univNewlines cs
      else '\n' :: univNewlines (c2 :: cs)
    else c :: univNewlines (c2 :: cs)

/-- States of the csv reading state machine, named after the states of
CPython's `_csv` reader (dialect: delimiter `,`, quote `"`,
`strict=False`). -/
inductive CsvState where
  | startRecord
  | startField
  | inField
  | inQuoted
  | quoteInQuoted
  | eatCrnl
deriving DecidableEq

/-- The csv reader of Python's `csv` module as a character state machine
(CPython `_csv.c` with the default `excel` dialect, `strict=False`).
`field` and `row` hold the field/record being accumulated, `acc` the
completed records.  Records end at `\r\n`, `\n` or a bare `\r`; a blank
line yields an empty record `[]` (the basic reader returns blanks — it
is `DictReader` that skips them among the data rows); a quoted field may
contain any character with `""` meaning a literal quote; after a closing
quote a stray character is appended to the field; end of input inside an
open quoted field saves the field (non-strict).  The one reader error is
a plain character while eating the `\r\n` run after a bare `\r` record
end — CPython's `new-line character seen in unquoted field` — hence the
`Option` result.  (In the program this state is unreachable: the read
handle's universal-newlines translation removes every `\r`.) -/
def csvGo : List Char → CsvState → List Char → List String →
    List (List String) → Option (List (List String))
  | [], .startRecord, _, _, acc => some acc
  | [], .eatCrnl, _, _, acc => some acc
  | [], _, field, row, acc => some (acc ++ [row ++ [field.asString]])
  | c :: cs, .startRecord, _, _, acc =>
    if c = '\n' then csvGo cs .startRecord [] [] (acc ++ [[]])
    else if c = '\r' then csvGo cs .eatCrnl [] [] (acc ++ [[]])
    else if c = '"' then csvGo cs .inQuoted [] [] acc
    else if c = ',' then csvGo cs .startField [] [""] acc
    else csvGo cs .inField [c] [] acc
  | c :: cs, .eatCrnl, _, _, acc =>
    if c = '\n' then csvGo cs .startRecord [] [] acc
    else if c = '\r' then csvGo cs .eatCrnl [] [] acc
    else none
  | c :: cs, .startField, _, row, acc =>
    if c = '"' then csvGo cs .inQuoted [] row acc
    else if c = ',' then csvGo cs .startField [] (row ++ [""]) acc
    else if c = '\n' then csvGo cs .startRecord [] [] (acc ++ [row ++ [""]])
    else if c = '\r' then csvGo cs .eatCrnl [] [] (acc ++ [row ++ [""]])
    else csvGo cs .inField [c] row acc
  | c :: cs, .inField, field, row, acc =>
    if c = ',' then csvGo cs .startField [] (row ++ [field.asString]) acc
    else if c = '\n' then csvGo cs .startRecord [] [] (acc ++ [row ++ [field.asString]])
    else if c = '\r' then csvGo cs .eatCrnl [] [] (acc ++ [row ++ [field.asString]])
    else csvGo cs .inField (field ++ [c]) row acc
  | c :: cs, .inQuoted, field, row, acc =>
    if c = '"' then csvGo cs .quoteInQuoted field row acc
    else csvGo cs .inQuoted (field ++ [c]) row acc
  | c :: cs, .quoteInQuoted, field, row, acc =>
    if c = '"' then csvGo cs .inQuoted (field ++ ['"']) row acc
    else if c = ',' then csvGo cs .startField [] (row ++ [field.asString]) acc
    else if c = '\n' then csvGo cs .startRecord [] [] (acc ++ [row ++ [field.asString]])
    else if c = '\r' then csvGo cs .eatCrnl [] [] (acc ++ [row ++ [field.asString]])
    else csvGo cs .inField (field ++ [c]) row acc

/-- All records of a csv input stream (characters as the reader receives
them), or `none` when the reader raises. -/
def csvParse (cs : List Char) : Option (List (List String)) :=
  csvGo cs .startRecord [] [] []

/-- Index of the last occurrence of `key` in a header row; `dict(zip(h, r))`
keeps the value of the last duplicate key. -/
def lastIdxOf (key : String) : List String → Option Nat
  | [] => none
  | h :: t =>
    match lastIdxOf key t with
    | some j => some (j + 1)
    | none => if h == key then some 0 else none

/-- Lookup `linha[key]` in the dict `csv.DictReader` builds for one data
row: `none` is a `KeyError` (`key` absent from the header), `some none` is
the `restval` `None` filled in for a row shorter than the header,
`some (some v)` an actual value. -/
def pyDictGet (header fields : List String) (key : String) : Option (Option String) :=
  (lastIdxOf key header).map fun j => fields.get? j

/-- The comprehension body `Usuario(linha['Nome'], linha['Email'])`
(line 54).  `none` models the `KeyError` that aborts the load when the
header lacks a field name.  A row shorter than the header would give
`Usuario(None, ...)` in Python (`restval`), a value no later operation of
the program survives; the embedding writes `""` for that `None` — no row
produced by `salvar_usuarios` is short, so no theorem depends on it. -/
def rowToUsuario (header fields : List String) : Option Usuario :=
  match pyDictGet header fields "Nome", pyDictGet header fields "Email" with
  | some n, some e => some ⟨n.getD "", e.getD ""⟩
  | _, _ => none

/-- The comprehension of line 54 over all data rows: left to right, the
first `KeyError` aborts the whole load.  `DictReader` skips blank
records (`while row == []: row = next(...)`) among the data rows. -/
def carregarLinhas (header : List String) : List (List String) → Option (List Usuario)
  | [] => some []
  | [] :: rs => carregarLinhas header rs
  | r :: rs =>
    match rowToUsuario header r, carregarLinhas header rs with
    | some u, some us => some (u :: us)
    | _, _ => none

/-- Reading the csv file with `csv.DictReader` (lines 52-54).  The handle
is opened without `newline=''`, so the reader sees the
universal-newlines translation of the file.  `DictReader.fieldnames`
takes the very first reader record — even a blank `[]` one — as the
header; every further record is one user; `none` is any exception
(reader error or `KeyError`).  An empty file has no header and no rows,
so the comprehension yields `[]`. -/
def carregarCsv (s : String) : Option (List Usuario) :=
  match csvParse (univNewlines s.data) with
  | none => none
  | some [] => some []
  | some (header :: rows) => carregarLinhas header rows

/-- A user record as the save-then-load cycle reproduces it: both fields
pass through the read handle's universal-newlines translation, so `\r\n`
and lone `\r` inside a field come back as `\n`. -/
def usuarioTraduzido (u : Usuario) : Usuario :=
  ⟨(univNewlines u.nome.data).asString, (univNewlines u.email.data).asString⟩

/-- Method `carregar_usuarios` (lines 46-63), csv branch.  `file` is the
content of `DATA_FILE_CSV` (`none` when the file does not exist), `prev`
the store `self.usuarios` before the call.  Result: the store after the
call, and the value the method returns (`some []` from the early
`return []` of the missing-file branch, `none` — Python `None` —
otherwise).  A missing file leaves the store untouched; an exception is
caught, logged and printed, and also leaves the store untouched, because
the assignment `self.usuarios = [...]` never ran. -/
def carregar_usuarios (prev : List Usuario) (file : Option String) :
    List Usuario × Option (List Usuario) :=
  match file with
  | none => (prev, some [])
  | some s =>
    match carregarCsv s with
    | some us => (us, none)
    | none => (prev, none)

/-- The fixed first-name list of `gerar_nome_aleatorio` (line 163). -/
def nomes : List String :=
  ["Ana", "João", "Maria", "Pedro", "Lucas", "Fernanda", "Juliana", "Carlos"]

/-- The fixed surname list of `gerar_nome_aleatorio` (line 164). -/
def sobrenomes : List String :=
  ["Silva", "Souza", "Oliveira", "Santos", "Pereira", "Lima", "Eduarda",
    "Miguel", "Guilherme", "Batata"]

/-- Method `gerar_nome_aleatorio` (lines 161-165) with the two random
choices as parameters: `f"{nome} {sobrenome}"`. -/
def gerar_nome_aleatorio (nome sobrenome : String) : String :=
  nome ++ " " ++ sobrenome

/-- Python `str.lower()` restricted to what occurs here: ASCII uppercase
letters are lowered, every other character (including the already
lower-case `ã`) is unchanged. -/
def pyLower (s : String) : String :=
  (s.data.map Char.toLower).asString

/-- Python `nome.replace(" ", ".")`: the pattern is a single character, so
this is a character map. -/
def pontosPorEspacos (s : String) : String :=
  (s.data.map fun c => if c = ' ' then '.' else c).asString

/-- Method `gerar_email_aleatorio` (lines 167-171) with the five random
lowercase letters `ds` as a parameter:
`nome.replace(" ", ".").lower() + "@" + dominio` where
`dominio = ds + "gmail.com"`. -/
def gerar_email_aleatorio (nome : String) (ds : List Char) : String :=
  pyLower (pontosPorEspacos nome) ++ "@" ++ (ds.asString ++ "gmail.com")

/-- The retry loop of `gerar_usuario_aleatorio` (lines 177-178): while the
candidate e-mail is already in the store, draw the next domain.  `e` is
the current candidate, `ds` the remaining random draws; `none` models the
executions in which the loop never exits. -/
def loopEmail (nome : String) (us : List Usuario) (e : String)
    (ds : List (List Char)) : Option String :=
  if us.any (fun u => u.email == e) then
    match ds with
    | [] => none
    | d :: ds' => loopEmail nome us (gerar_email_aleatorio nome d) ds'
  else some e
termination_by structural ds

/-- Method `gerar_usuario_aleatorio` (lines 173-180) with all random draws
as parameters: compose the name, run the retry loop from the first
candidate e-mail, and hand the result to `cadastrar_usuario`. -/
def gerar_usuario_aleatorio (n s : String) (d0 : List Char)
    (ds : List (List Char)) (us : List Usuario) :
    Option (CadastroResultado × List Usuario) :=
  let nome := gerar_nome_aleatorio n s
  match loopEmail nome us (gerar_email_aleatorio nome d0) ds with
  | none => none
  | some email => some (cadastrar_usuario nome email us)

/-! ## Helper lemmas -/

/-- Two user records differ in their e-mail fields. -/
def emailsDistintos (u v : Usuario) : Prop := u.email ≠ v.email

/-- A successful `afterPonto` ends in a letter: the final label is a
non-empty run of letters that reaches the end of the input. -/
theorem afterPonto_last {l : List Char} (h : afterPonto l = true) :
    ∃ c, l.getLast? = some c ∧ c.isAlpha = true := by
  cases l with
  | nil => simp [afterPonto] at h
  | cons a rest =>
    rw [afterPonto, Bool.and_eq_true] at h
    obtain ⟨-, htld⟩ := h
    rw [isTld, Bool.and_eq_true] at htld
    obtain ⟨hlen, hall⟩ := htld
    have hne : rest ≠ [] := by
      intro h0
      subst h0
      simp at hlen
    obtain ⟨c, hc⟩ := Option.isSome_iff_exists.mp (List.getLast?_isSome.mpr hne)
    refine ⟨c, ?_, List.all_eq_true.mp hall c (List.mem_of_mem_getLast? hc)⟩
    rw [show a :: rest = [a] ++ rest from rfl, List.getLast?_append, hc]
    rfl

/-- The e-mail pattern is anchored at the end: an input it matches in full
ends in an ASCII letter (the last character of the `[a-zA-Z]{2,}`
label). -/
theorem matchesPat_last {cs : List Char} (h : matchesPat cs = true) :
    ∃ c, cs.getLast? = some c ∧ c.isAlpha = true := by
  rw [matchesPat, List.any_eq_true] at h
  obtain ⟨i, -, hbody⟩ := h
  rw [Bool.and_eq_true, Bool.and_eq_true] at hbody
  obtain ⟨-, hafter⟩ := hbody
  cases hdrop : cs.drop i with
  | nil => rw [hdrop] at hafter; simp [afterArroba] at hafter
  | cons a rest =>
    rw [hdrop, afterArroba, Bool.and_eq_true] at hafter
    obtain ⟨-, hdm⟩ := hafter
    rw [domainMatch, List.any_eq_true] at hdm
    obtain ⟨j, -, hb2⟩ := hdm
    rw [Bool.and_eq_true, Bool.and_eq_true] at hb2
    obtain ⟨-, hp⟩ := hb2
    obtain ⟨c, hlast, halpha⟩ := afterPonto_last hp
    have h1 : rest.getLast? = some c := by
      conv_lhs => rw [← List.take_append_drop j rest]
      rw [List.getLast?_append, hlast]
      rfl
    refine ⟨c, ?_, halpha⟩
    conv_lhs => rw [← List.take_append_drop i cs, hdrop]
    rw [List.getLast?_append, show a :: rest = [a] ++ rest from rfl,
      List.getLast?_append, h1]
    rfl

/-- Appending any character that is neither a letter nor a newline to any
string yields an input `validar_email` rejects: the pattern must end at
the last character (which would have to be a letter) or just before a
single final newline. -/
theorem validar_email_push_nao_letra (s : String) (c : Char)
    (h1 : c.isAlpha = false) (h2 : c ≠ '\n') :
    validar_email (s.push c) = false := by
  rw [validar_email]
  show (matchesPat (s.data ++ [c]) ||
    ((s.data ++ [c]).getLast? == some '\n' &&
      matchesPat (s.data ++ [c]).dropLast)) = false
  cases hm : matchesPat (s.data ++ [c]) with
  | true =>
    exfalso
    obtain ⟨c', hl, ha⟩ := matchesPat_last hm
    rw [List.getLast?_concat] at hl
    injection hl with hl
    rw [← hl] at ha
    rw [ha] at h1
    exact Bool.noConfusion h1
  | false =>
    simp [List.getLast?_concat, h2]

/-- Appending an ASCII letter to the accepted `"a@b.co"` is still accepted:
the letter is absorbed into the final `[a-zA-Z]{2,}` label. -/
theorem validar_email_push_letra (c : Char) (hc : c.isAlpha = true) :
    validar_email ("a@b.co".push c) = true := by
  rw [validar_email]
  have hm : matchesPat (("a@b.co".push c).data) = true := by
    show matchesPat ('a' :: '@' :: 'b' :: '.' :: 'c' :: 'o' :: [c]) = true
    rw [matchesPat, List.any_eq_true]
    refine ⟨1, by simp, ?_⟩
    show (decide (1 ≤ 1) && (['a'].all isLocalChar) &&
      afterArroba ('@' :: 'b' :: '.' :: 'c' :: 'o' :: [c])) = true
    rw [afterArroba]
    simp only [Bool.and_eq_true]
    refine ⟨⟨by decide, by decide⟩, by decide, ?_⟩
    rw [domainMatch]
    refine List.any_eq_true.mpr ⟨1, by simp, ?_⟩
    show (decide (1 ≤ 1) && (['b'].all isDomainChar) &&
      afterPonto ('.' :: 'c' :: 'o' :: [c])) = true
    rw [afterPonto, isTld]
    simp [isDomainChar, hc]
  rw [hm]
  rfl

/-- Unfolding of `specialChar c = false` into the four inequalities the
csv state machine branches on. -/
theorem nonspecial_spec {c : Char} (h : specialChar c = false) :
    c ≠ ',' ∧ c ≠ '"' ∧ c ≠ '\r' ∧ c ≠ '\n' := by
  rw [specialChar] at h
  simp only [Bool.or_eq_false_iff] at h
  obtain ⟨⟨⟨h1, h2⟩, h3⟩, h4⟩ := h
  exact ⟨by simpa using h1, by simpa using h2, by simpa using h3, by simpa using h4⟩

/-- A field free of special characters is all non-special. -/
theorem all_nao_especial {f : List Char} (hf : f.any specialChar = false) :
    f.all (fun c => !specialChar c) = true := by
  rw [List.all_eq_true]
  intro x hx
  rw [Bool.not_eq_true']
  exact Bool.eq_false_iff.mpr (List.any_eq_false.mp hf x hx)

/-- Reading back an escaped field body inside quotes accumulates exactly
the original field: each doubled quote collapses to one quote, every
other character is passed through. -/
theorem csvGo_escape (f : List Char) : ∀ (cs field : List Char)
    (row : List String) (acc : List (List String)),
    csvGo (escapeChars f ++ cs) .inQuoted field row acc
      = csvGo cs .inQuoted (field ++ f) row acc := by
  induction f with
  | nil => intro cs field row acc; simp [escapeChars]
  | cons c f ih =>
    intro cs field row acc
    by_cases hc : c = '"'
    · subst hc
      show csvGo ('"' :: '"' :: (escapeChars f ++ cs)) .inQuoted field row acc = _
      rw [show csvGo ('"' :: '"' :: (escapeChars f ++ cs)) .inQuoted field row acc
          = csvGo (escapeChars f ++ cs) .inQuoted (field ++ ['"']) row acc from rfl]
      rw [ih]
      simp [escapeChars]
    · show csvGo (escapeChars (c :: f) ++ cs) .inQuoted field row acc = _
      rw [escapeChars]
      simp only [if_neg hc]
      show csvGo (c :: (escapeChars f ++ cs)) .inQuoted field row acc = _
      rw [csvGo]
      simp only [if_neg hc]
      rw [ih]
      simp

/-- Reading an unquoted field body (no special characters) accumulates it
verbatim. -/
theorem csvGo_unquoted (f : List Char)
    (h : f.all (fun c => !specialChar c) = true) :
    ∀ (cs field : List Char) (row : List String) (acc : List (List String)),
    csvGo (f ++ cs) .inField field row acc
      = csvGo cs .inField (field ++ f) row acc := by
  induction f with
  | nil => intro cs field row acc; simp
  | cons c f ih =>
    intro cs field row acc
    rw [List.all_cons, Bool.and_eq_true] at h
    obtain ⟨hc, hf⟩ := h
    rw [Bool.not_eq_true'] at hc
    obtain ⟨h1, h2, h3, h4⟩ := nonspecial_spec hc
    show csvGo (c :: (f ++ cs)) .inField field row acc = _
    rw [csvGo]
    simp only [if_neg h1, if_neg h4, if_neg h3]
    rw [ih hf]
    simp

/-- Reading one written field followed by a comma appends exactly that
field to the current record. -/
theorem csvGo_field_comma (f : List Char) :
    ∀ (cs : List Char) (row : List String) (acc : List (List String)),
    csvGo (quoteFieldChars f ++ ',' :: cs) .startField [] row acc
      = csvGo cs .startField [] (row ++ [f.asString]) acc := by
  intro cs row acc
  rw [quoteFieldChars]
  by_cases hq : f.any specialChar = true
  · rw [if_pos hq]
    show csvGo ('"' :: ((escapeChars f ++ ['"']) ++ ',' :: cs)) .startField [] row acc = _
    rw [show csvGo ('"' :: ((escapeChars f ++ ['"']) ++ ',' :: cs)) .startField [] row acc
        = csvGo ((escapeChars f ++ ['"']) ++ ',' :: cs) .inQuoted [] row acc from rfl]
    rw [List.append_assoc]
    rw [csvGo_escape]
    rfl
  · rw [if_neg hq]
    rw [Bool.not_eq_true] at hq
    cases f with
    | nil => rfl
    | cons c f =>
      rw [List.any_cons, Bool.or_eq_false_iff] at hq
      obtain ⟨hc, hf⟩ := hq
      obtain ⟨h1, h2, h3, h4⟩ := nonspecial_spec hc
      show csvGo (c :: (f ++ ',' :: cs)) .startField [] row acc = _
      rw [csvGo]
      simp only [if_neg h2, if_neg h1, if_neg h4, if_neg h3]
      rw [csvGo_unquoted f (all_nao_especial hf)]
      rfl

/-- Reading the first written field of a record from the between-records
state behaves like reading it from the field-start state with an empty
record: the writer never puts a record separator first, so the
blank-line-skipping branches are not taken. -/
theorem csvGo_first_field_comma (f : List Char) :
    ∀ (cs : List Char) (acc : List (List String)),
    csvGo (quoteFieldChars f ++ ',' :: cs) .startRecord [] [] acc
      = csvGo cs .startField [] [f.asString] acc := by
  intro cs acc
  rw [quoteFieldChars]
  by_cases hq : f.any specialChar = true
  · rw [if_pos hq]
    show csvGo ('"' :: ((escapeChars f ++ ['"']) ++ ',' :: cs)) .startRecord [] [] acc = _
    rw [show csvGo ('"' :: ((escapeChars f ++ ['"']) ++ ',' :: cs)) .startRecord [] [] acc
        = csvGo ((escapeChars f ++ ['"']) ++ ',' :: cs) .inQuoted [] [] acc from rfl]
    rw [List.append_assoc]
    rw [csvGo_escape]
    rfl
  · rw [if_neg hq]
    rw [Bool.not_eq_true] at hq
    cases f with
    | nil => rfl
    | cons c f =>
      rw [List.any_cons, Bool.or_eq_false_iff] at hq
      obtain ⟨hc, hf⟩ := hq
      obtain ⟨h1, h2, h3, h4⟩ := nonspecial_spec hc
      show csvGo (c :: (f ++ ',' :: cs)) .startRecord [] [] acc = _
      rw [csvGo]
      simp only [if_neg h4, if_neg h3, if_neg h2, if_neg h1]
      rw [csvGo_unquoted f (all_nao_especial hf)]
      rfl

/-- Translation step: a character other than `\r` passes through. -/
theorem univNewlines_cons {c : Char} (hc : c ≠ '\r') (cs : List Char) :
    univNewlines (c :: cs) = c :: univNewlines cs := by
  cases cs with
  | nil => simp [univNewlines, hc]
  | cons c2 cs => rw [univNewlines, if_neg hc]

/-- Translation step: a `\r\n` pair collapses to `\n`. -/
theorem univNewlines_crlf (cs : List Char) :
    univNewlines ('\r' :: '\n' :: cs) = '\n' :: univNewlines cs := by
  rw [univNewlines]
  simp

/-- Translation step: a `\r` not followed by `\n` becomes `\n`. -/
theorem univNewlines_cr {l : List Char} (h : l.head? ≠ some '\n') :
    univNewlines ('\r' :: l) = '\n' :: univNewlines l := by
  cases l with
  | nil => rfl
  | cons c2 cs =>
    have hc2 : c2 ≠ '\n' := by simpa using h
    rw [univNewlines]
    simp [hc2]

/-- A prefix free of special characters (so in particular of `\r`) passes
through the translation, which then continues on the rest. -/
theorem univNewlines_nao_especial {f : List Char}
    (h : f.any specialChar = false) (rest : List Char) :
    univNewlines (f ++ rest) = f ++ univNewlines rest := by
  induction f with
  | nil => rfl
  | cons c f ih =>
    rw [List.any_cons, Bool.or_eq_false_iff] at h
    obtain ⟨hc, hf⟩ := h
    obtain ⟨-, -, h3, -⟩ := nonspecial_spec hc
    rw [List.cons_append, univNewlines_cons h3, ih hf, List.cons_append]

/-- A field free of special characters is a fixed point of the
translation. -/
theorem univNewlines_id_nao_especial {f : List Char}
    (h : f.any specialChar = false) : univNewlines f = f := by
  have := univNewlines_nao_especial h []
  simpa [show univNewlines [] = [] from rfl] using this

/-- Any text without a carriage return is a fixed point of the
translation. -/
theorem univNewlines_sem_cr {f : List Char} (h : '\r' ∉ f) :
    univNewlines f = f := by
  induction f with
  | nil => rfl
  | cons c f ih =>
    have hc : c ≠ '\r' := fun he => h (he ▸ List.mem_cons_self c f)
    rw [univNewlines_cons hc, ih fun hm => h (List.mem_cons_of_mem c hm)]

/-- The translation preserves whether a field needs quoting: `\r` maps to
the still-special `\n` and no special character appears or disappears
otherwise. -/
theorem univNewlines_any_special (f : List Char) :
    (univNewlines f).any specialChar = f.any specialChar := by
  induction f using univNewlines.induct with
  | case1 => rfl
  | case2 c =>
    by_cases hc : c = '\r'
    · subst hc; rfl
    · simp [univNewlines, hc]
  | case3 cs ih =>
    rw [univNewlines_crlf]
    simp [specialChar, ih]
  | case4 c2 cs h1 ih =>
    rw [univNewlines_cr (by simpa using h1)]
    simp [specialChar, ih]
  | case5 c c2 cs h1 ih =>
    rw [univNewlines_cons h1]
    simp [ih]

/-- The translation commutes with quote doubling: quote characters are
untouched by the translation and never split a `\r\n` pair of the
field. -/
theorem univNewlines_escape (f : List Char) : ∀ (rest : List Char),
    univNewlines (escapeChars f ++ '"' :: rest)
      = escapeChars (univNewlines f) ++ '"' :: univNewlines rest := by
  induction f using univNewlines.induct with
  | case1 =>
    intro rest
    rw [show escapeChars [] = [] from rfl]
    simp only [List.nil_append]
    rw [univNewlines_cons (by decide)]
    rfl
  | case2 c =>
    intro rest
    by_cases hq : c = '"'
    · subst hq
      rw [show escapeChars ['"'] = ['"', '"'] from rfl]
      rw [show (['"', '"'] : List Char) ++ '"' :: rest = '"' :: '"' :: '"' :: rest from rfl]
      rw [univNewlines_cons (by decide), univNewlines_cons (by decide),
        univNewlines_cons (by decide)]
      rfl
    · by_cases hr : c = '\r'
      · subst hr
        rw [show escapeChars ['\r'] = ['\r'] from rfl]
        rw [show (['\r'] : List Char) ++ '"' :: rest = '\r' :: '"' :: rest from rfl]
        rw [univNewlines_cr (by simp), univNewlines_cons (by decide)]
        rfl
      · rw [show escapeChars [c] = [c] from by simp [escapeChars, hq]]
        rw [show ([c] : List Char) ++ '"' :: rest = c :: '"' :: rest from rfl]
        rw [univNewlines_cons hr, univNewlines_cons (by decide)]
        simp [univNewlines, escapeChars, hr, hq]
  | case3 cs ih =>
    intro rest
    rw [show escapeChars ('\r' :: '\n' :: cs) = '\r' :: '\n' :: escapeChars cs
      from by simp [escapeChars]]
    rw [show ('\r' :: '\n' :: escapeChars cs) ++ '"' :: rest
        = '\r' :: '\n' :: (escapeChars cs ++ '"' :: rest) from rfl]
    rw [univNewlines_crlf, ih, univNewlines_crlf]
    rw [show escapeChars ('\n' :: univNewlines cs) = '\n' :: escapeChars (univNewlines cs)
      from by simp [escapeChars]]
    rfl
  | case4 c2 cs h1 ih =>
    intro rest
    rw [show escapeChars ('\r' :: c2 :: cs) = '\r' :: escapeChars (c2 :: cs)
      from by simp [escapeChars]]
    rw [show ('\r' :: escapeChars (c2 :: cs)) ++ '"' :: rest
        = '\r' :: (escapeChars (c2 :: cs) ++ '"' :: rest) from rfl]
    have hhead : (escapeChars (c2 :: cs) ++ '"' :: rest).head? ≠ some '\n' := by
      by_cases hq : c2 = '"'
      · subst hq
        rw [show escapeChars ('"' :: cs) = '"' :: '"' :: escapeChars cs
          from by simp [escapeChars]]
        simp
      · rw [show escapeChars (c2 :: cs) = c2 :: escapeChars cs
          from by simp [escapeChars, hq]]
        simpa using h1
    rw [univNewlines_cr hhead, ih]
    rw [univNewlines_cr (by simpa using h1)]
    rw [show escapeChars ('\n' :: univNewlines (c2 :: cs))
        = '\n' :: escapeChars (univNewlines (c2 :: cs)) from by simp [escapeChars]]
    rfl
  | case5 c c2 cs h1 ih =>
    intro rest
    by_cases hq : c = '"'
    · subst hq
      rw [show escapeChars ('"' :: c2 :: cs) = '"' :: '"' :: escapeChars (c2 :: cs)
        from by simp [escapeChars]]
      rw [show ('"' :: '"' :: escapeChars (c2 :: cs)) ++ '"' :: rest
          = '"' :: '"' :: (escapeChars (c2 :: cs) ++ '"' :: rest) from rfl]
      rw [univNewlines_cons (by decide), univNewlines_cons (by decide), ih]
      rw [show univNewlines ('"' :: c2 :: cs) = '"' :: univNewlines (c2 :: cs)
        from univNewlines_cons (by decide) _]
      rw [show escapeChars ('"' :: univNewlines (c2 :: cs))
          = '"' :: '"' :: escapeChars (univNewlines (c2 :: cs)) from by simp [escapeChars]]
      rfl
    · rw [show escapeChars (c :: c2 :: cs) = c :: escapeChars (c2 :: cs)
        from by simp [escapeChars, hq]]
      rw [show (c :: escapeChars (c2 :: cs)) ++ '"' :: rest
          = c :: (escapeChars (c2 :: cs) ++ '"' :: rest) from rfl]
      rw [univNewlines_cons h1, ih, univNewlines_cons h1]
      rw [show escapeChars (c :: univNewlines (c2 :: cs))
          = c :: escapeChars (univNewlines (c2 :: cs)) from by simp [escapeChars, hq]]
      rfl

/-- The translation of a written field is the written translated field:
reading the file without `newline=''` is as if the writer had written the
translated field values. -/
theorem univNewlines_quoteField (f : List Char) (rest : List Char) :
    univNewlines (quoteFieldChars f ++ rest)
      = quoteFieldChars (univNewlines f) ++ univNewlines rest := by
  rw [quoteFieldChars, quoteFieldChars, univNewlines_any_special]
  by_cases hq : f.any specialChar = true
  · rw [if_pos hq, if_pos hq]
    rw [show ('"' :: (escapeChars f ++ ['"'])) ++ rest
        = '"' :: (escapeChars f ++ '"' :: rest) from by simp]
    rw [univNewlines_cons (by decide), univNewlines_escape]
    simp
  · rw [if_neg hq, if_neg hq]
    rw [Bool.not_eq_true] at hq
    rw [univNewlines_nao_especial hq, univNewlines_id_nao_especial hq]

/-- The translation of one written row: both fields are translated in
place and the `\r\n` row terminator becomes `\n`. -/
theorem univNewlines_row (u : Usuario) (rest : List Char) :
    univNewlines (rowChars u ++ rest)
      = quoteFieldChars (univNewlines u.nome.data) ++
          ',' :: (quoteFieldChars (univNewlines u.email.data) ++
            '\n' :: univNewlines rest) := by
  rw [show rowChars u ++ rest
      = quoteFieldChars u.nome.data ++
          (',' :: (quoteFieldChars u.email.data ++ '\r' :: '\n' :: rest))
    from by rw [rowChars]; simp]
  rw [univNewlines_quoteField, univNewlines_cons (by decide),
    univNewlines_quoteField, univNewlines_crlf]

/-- Reading one written field followed by the translated `\n` terminator
finishes the current record with exactly that field. -/
theorem csvGo_field_lf (f : List Char) :
    ∀ (cs : List Char) (row : List String) (acc : List (List String)),
    csvGo (quoteFieldChars f ++ '\n' :: cs) .startField [] row acc
      = csvGo cs .startRecord [] [] (acc ++ [row ++ [f.asString]]) := by
  intro cs row acc
  rw [quoteFieldChars]
  by_cases hq : f.any specialChar = true
  · rw [if_pos hq]
    show csvGo ('"' :: ((escapeChars f ++ ['"']) ++ '\n' :: cs))
        .startField [] row acc = _
    rw [show csvGo ('"' :: ((escapeChars f ++ ['"']) ++ '\n' :: cs))
          .startField [] row acc
        = csvGo ((escapeChars f ++ ['"']) ++ '\n' :: cs) .inQuoted [] row acc
        from rfl]
    rw [List.append_assoc]
    rw [csvGo_escape]
    rfl
  · rw [if_neg hq]
    rw [Bool.not_eq_true] at hq
    cases f with
    | nil => rfl
    | cons c f =>
      rw [List.any_cons, Bool.or_eq_false_iff] at hq
      obtain ⟨hc, hf⟩ := hq
      obtain ⟨h1, h2, h3, h4⟩ := nonspecial_spec hc
      show csvGo (c :: (f ++ '\n' :: cs)) .startField [] row acc = _
      rw [csvGo]
      simp only [if_neg h2, if_neg h1, if_neg h4, if_neg h3]
      rw [csvGo_unquoted f (all_nao_especial hf)]
      rfl

/-- Reading back one translated row adds exactly the two-field record. -/
theorem csvGo_row_lf (n e : List Char) :
    ∀ (cs : List Char) (acc : List (List String)),
    csvGo (quoteFieldChars n ++ ',' :: (quoteFieldChars e ++ '\n' :: cs))
        .startRecord [] [] acc
      = csvGo cs .startRecord [] [] (acc ++ [[n.asString, e.asString]]) := by
  intro cs acc
  rw [csvGo_first_field_comma, csvGo_field_lf]
  rfl

/-- Reading back the translation of all written rows adds exactly one
record per user, in order, with the translated field values. -/
theorem csvGo_rows_univ (us : List Usuario) :
    ∀ (acc : List (List String)),
    csvGo (univNewlines (us.map rowChars).flatten) .startRecord [] [] acc
      = some (acc ++ us.map fun u =>
          [(univNewlines u.nome.data).asString,
            (univNewlines u.email.data).asString]) := by
  induction us with
  | nil => intro acc; simp [univNewlines, csvGo]
  | cons u us ih =>
    intro acc
    rw [List.map_cons, List.flatten_cons, univNewlines_row, csvGo_row_lf, ih]
    simp

/-- Under the header `Nome,Email`, a two-field record per user is read
back as exactly that user. -/
theorem carregarLinhas_map (vs : List Usuario) :
    carregarLinhas ["Nome", "Email"] (vs.map fun v => [v.nome, v.email])
      = some vs := by
  induction vs with
  | nil => rfl
  | cons v vs ih =>
    rw [List.map_cons]
    show (match rowToUsuario ["Nome", "Email"] [v.nome, v.email],
        carregarLinhas ["Nome", "Email"] (vs.map fun v => [v.nome, v.email]) with
      | some u, some us => some (u :: us)
      | _, _ => none) = some (v :: vs)
    rw [show rowToUsuario ["Nome", "Email"] [v.nome, v.email] = some ⟨v.nome, v.email⟩
      from rfl, ih]

/-- The csv cycle at file level: loading the file `salvar_usuarios` writes
gives back the store with every field passed through the read handle's
universal-newlines translation. -/
theorem carregarCsv_salvar (us : List Usuario) :
    carregarCsv (salvar_usuarios us) = some (us.map usuarioTraduzido) := by
  rw [carregarCsv]
  have hparse : csvParse (univNewlines (salvar_usuarios us).data)
      = some (["Nome", "Email"] ::
          (us.map usuarioTraduzido).map fun v => [v.nome, v.email]) := by
    rw [csvParse]
    show csvGo (univNewlines (salvarChars us)) .startRecord [] [] [] = _
    rw [salvarChars]
    rw [show "Nome,Email\r\n".data = rowChars ⟨"Nome", "Email"⟩ from by decide]
    rw [univNewlines_row, csvGo_row_lf, csvGo_rows_univ]
    rw [List.map_map]
    rfl
  rw [hparse]
  exact carregarLinhas_map (us.map usuarioTraduzido)

/-- A record without carriage returns in its fields survives the cycle
unchanged. -/
theorem usuarioTraduzido_sem_cr {u : Usuario}
    (h1 : '\r' ∉ u.nome.data) (h2 : '\r' ∉ u.email.data) :
    usuarioTraduzido u = u := by
  rw [usuarioTraduzido, univNewlines_sem_cr h1, univNewlines_sem_cr h2]
  rfl

/-- Exiting the retry loop of `gerar_usuario_aleatorio` with `some e` means
`e` did not occur among the stored e-mails. -/
theorem loopEmail_livre (nome : String) (us : List Usuario) :
    ∀ (ds : List (List Char)) (e res : String),
      loopEmail nome us e ds = some res →
      us.any (fun u => u.email == res) = false := by
  intro ds
  induction ds with
  | nil =>
    intro e res h
    rw [loopEmail] at h
    cases hany : us.any (fun u => u.email == e) with
    | false => simp [hany] at h; simpa [← h] using hany
    | true => simp [hany] at h
  | cons d ds ih =>
    intro e res h
    rw [loopEmail] at h
    cases hany : us.any (fun u => u.email == e) with
    | false => simp [hany] at h; simpa [← h] using hany
    | true => simp [hany] at h; exact ih _ res h

/-! ## Claims -/

/-- C1: the spec declares e-mail uniqueness an invariant of the store and
the claim asserts that `update` preserves it even when the new e-mail
equals the e-mail of another existing record.  The code contradicts this:
`atualizar_usuario` never checks for duplicates, so updating
`"a@b.co"` to `"c@d.co"` in a store that already holds `"c@d.co"`
produces two records with the same e-mail and still reports success. -/
theorem atualizar_usuario_quebra_unicidade :
    List.Pairwise emailsDistintos
      [(⟨"A", "a@b.co"⟩ : Usuario), ⟨"B", "c@d.co"⟩] ∧
    atualizar_usuario "a@b.co" none (some "c@d.co")
        [⟨"A", "a@b.co"⟩, ⟨"B", "c@d.co"⟩]
      = (true, [⟨"A", "c@d.co"⟩, ⟨"B", "c@d.co"⟩]) ∧
    ¬ List.Pairwise emailsDistintos
        (atualizar_usuario "a@b.co" none (some "c@d.co")
          [⟨"A", "a@b.co"⟩, ⟨"B", "c@d.co"⟩]).2 := by
  refine ⟨by simp [emailsDistintos], by decide, ?_⟩
  have h2 : (atualizar_usuario "a@b.co" none (some "c@d.co")
        [⟨"A", "a@b.co"⟩, ⟨"B", "c@d.co"⟩]).2
      = [⟨"A", "c@d.co"⟩, ⟨"B", "c@d.co"⟩] := by decide
  rw [h2]
  simp [List.pairwise_cons, emailsDistintos]

/-- C2 (counterexample): the claim says a failed load leaves the store
empty; on the file `"X,Y\r\na,b\r\n"` the load fails with a `KeyError`
(header without `Nome`/`Email`), yet a previously non-empty store is kept
as it was, not emptied. -/
theorem carregar_usuarios_falha_nao_esvazia :
    carregarCsv "X,Y\r\na,b\r\n" = none ∧
    (carregar_usuarios [⟨"Ana", "a@b.co"⟩] (some "X,Y\r\na,b\r\n")).1
      = [⟨"Ana", "a@b.co"⟩] ∧
    (carregar_usuarios [⟨"Ana", "a@b.co"⟩] (some "X,Y\r\na,b\r\n")).1 ≠ [] := by
  decide

/-- C2 (amended): when the configured file does not exist, load returns the
empty sequence without error and leaves the store untouched; on a
read/parse failure the exception is caught (load never raises) and the
in-memory store retains its previous contents — which is the empty
sequence at program startup, where the store starts empty. -/
theorem carregar_usuarios_falha_preserva_estado :
    ∀ (prev : List Usuario) (s : String),
      carregar_usuarios prev none = (prev, some []) ∧
      (carregarCsv s = none → carregar_usuarios prev (some s) = (prev, none)) := by
  intro prev s
  refine ⟨rfl, fun h => ?_⟩
  simp [carregar_usuarios, h]

/-- C2 (witness): the amended statement at a concrete previous store and a
concrete unparsable file. -/
theorem carregar_usuarios_falha_preserva_estado_w :
    carregar_usuarios [⟨"Bia", "bia@x.co"⟩] none
      = ([⟨"Bia", "bia@x.co"⟩], some []) ∧
    carregar_usuarios [⟨"Bia", "bia@x.co"⟩] (some "X,Y\r\n1,2\r\n")
      = ([⟨"Bia", "bia@x.co"⟩], none) :=
  ⟨(carregar_usuarios_falha_preserva_estado [⟨"Bia", "bia@x.co"⟩] "X,Y\r\n1,2\r\n").1,
   (carregar_usuarios_falha_preserva_estado [⟨"Bia", "bia@x.co"⟩] "X,Y\r\n1,2\r\n").2
     (by decide)⟩

/-- C3 (counterexample): the claim has `validar_email` accept a valid
e-mail followed by extra characters, giving `"a@b.com extra"` as the
example; the pattern ends with `$`, so the code rejects it. -/
theorem validar_email_rejeita_sufixo :
    validar_email "a@b.com extra" = false := by
  decide

/-- C3 (amended): `validar_email` anchors the pattern at the start AND at
the end of the string: `"a@b.co"` passes, `"not-an-email"` and `"a@b"`
fail, and a valid e-mail followed by extra characters such as
`"a@b.com extra"` fails.  The only trailing character the `$` anchor
tolerates after a match is a single final newline; generally, any string
ending in a character that is neither an ASCII letter nor a newline is
rejected. -/
theorem validar_email_ancorado :
    validar_email "a@b.co" = true ∧
    validar_email "not-an-email" = false ∧
    validar_email "a@b" = false ∧
    validar_email "a@b.com extra" = false ∧
    validar_email "a@b.co\n" = true ∧
    ∀ (s : String) (c : Char), c.isAlpha = false → c ≠ '\n' →
      validar_email (s.push c) = false := by
  exact ⟨by decide, by decide, by decide, by decide, by decide,
    validar_email_push_nao_letra⟩

/-- C3 (witness): the universal part of the amended statement applied at
the claim's own example, `"a@b.com"` followed by a space. -/
theorem validar_email_ancorado_w :
    Char.isAlpha ' ' = false ∧ validar_email ("a@b.com".push ' ') = false :=
  ⟨by decide,
    validar_email_ancorado.2.2.2.2.2 "a@b.com" ' ' (by decide) (by decide)⟩

/-- C4: `cadastrar_usuario` fails with the invalid-name message iff
`validar_nome` fails; otherwise with the invalid-e-mail message iff
`validar_email` fails; otherwise with the duplicate message iff some
stored record carries the same e-mail; every failure leaves the store
unchanged and success appends exactly the new record at the end.  In
particular registering `("Ana Silva", "ana@example.com")` on the empty
store and then `("Outro", "ana@example.com")` leaves exactly one
record. -/
theorem cadastrar_usuario_spec :
    (∀ (nome email : String) (us : List Usuario),
      ((cadastrar_usuario nome email us).1 = .invalidName ↔
        validar_nome nome = false) ∧
      (validar_nome nome = true →
        ((cadastrar_usuario nome email us).1 = .invalidEmail ↔
          validar_email email = false)) ∧
      (validar_nome nome = true → validar_email email = true →
        ((cadastrar_usuario nome email us).1 = .duplicateEmail ↔
          us.any (fun u => u.email == email) = true)) ∧
      ((cadastrar_usuario nome email us).1 ≠ .ok →
        (cadastrar_usuario nome email us).2 = us) ∧
      ((cadastrar_usuario nome email us).1 = .ok →
        (cadastrar_usuario nome email us).2 = us ++ [⟨nome, email⟩])) ∧
    cadastrar_usuario "Ana Silva" "ana@example.com" []
      = (.ok, [⟨"Ana Silva", "ana@example.com"⟩]) ∧
    cadastrar_usuario "Outro" "ana@example.com" [⟨"Ana Silva", "ana@example.com"⟩]
      = (.duplicateEmail, [⟨"Ana Silva", "ana@example.com"⟩]) := by
  refine ⟨?_, by decide, by decide⟩
  intro nome email us
  cases h1 : validar_nome nome <;>
    cases h2 : validar_email email <;>
      cases h3 : us.any (fun u => u.email == email) <;>
        simp [cadastrar_usuario, h1, h2, h3]

/-- C4 (witness): the specification applied at a name that fails
validation, an invalid e-mail on a valid name, and a duplicate. -/
theorem cadastrar_usuario_spec_w :
    (cadastrar_usuario "   " "a@b.co" []).1 = .invalidName ∧
    (cadastrar_usuario "Ana" "nope" []).1 = .invalidEmail ∧
    (cadastrar_usuario "Ana" "nope" []).2 = [] :=
  ⟨(cadastrar_usuario_spec.1 "   " "a@b.co" []).1.mpr (by decide),
   ((cadastrar_usuario_spec.1 "Ana" "nope" []).2.1 (by decide)).mpr (by decide),
   (cadastrar_usuario_spec.1 "Ana" "nope" []).2.2.2.1 (by decide)⟩

/-- C5: `atualizar_usuario` acts on the first record whose e-mail equals
the argument exactly; when none matches it reports failure and leaves the
store unchanged; when one matches, the name and e-mail are replaced
independently per the provided-and-valid rule (`nomeAtualizado`,
`emailAtualizado` — the old value is kept silently otherwise), the rest of
the store is untouched and success is always reported.  In particular an
empty new name with a valid new e-mail changes only the e-mail. -/
theorem atualizar_usuario_spec :
    (∀ (email : String) (nn ne : Option String) (us : List Usuario),
      ((∀ u ∈ us, u.email ≠ email) → atualizar_usuario email nn ne us = (false, us)) ∧
      (∀ (pre : List Usuario) (u : Usuario) (post : List Usuario),
        us = pre ++ u :: post → (∀ v ∈ pre, v.email ≠ email) → u.email = email →
        atualizar_usuario email nn ne us =
          (true, pre ++
            ⟨nomeAtualizado nn u.nome, emailAtualizado ne u.email⟩ :: post))) ∧
    atualizar_usuario "a@b.co" (some "") (some "novo@x.com") [⟨"Ana", "a@b.co"⟩]
      = (true, [⟨"Ana", "novo@x.com"⟩]) := by
  refine ⟨?_, by decide⟩
  intro email nn ne us
  constructor
  · intro hall
    induction us with
    | nil => rfl
    | cons u rest ih =>
      have hu : u.email ≠ email := hall u (by simp)
      have hrest := ih fun v hv => hall v (by simp [hv])
      simp [atualizar_usuario, hu, hrest]
  · intro pre u post hus hpre hu
    subst hus
    induction pre with
    | nil => simp [atualizar_usuario, hu]
    | cons v pre ih =>
      have hv : v.email ≠ email := hpre v (by simp)
      have := ih fun w hw => hpre w (by simp [hw])
      simp [atualizar_usuario, hv, this]

/-- C5 (witness): the not-found case and the first-match case at concrete
stores. -/
theorem atualizar_usuario_spec_w :
    atualizar_usuario "z@z.co" (some "Novo") none [⟨"Ana", "a@b.co"⟩]
      = (false, [⟨"Ana", "a@b.co"⟩]) ∧
    atualizar_usuario "b@x.co" (some "Novo") none [⟨"Ana", "a@b.co"⟩, ⟨"Bia", "b@x.co"⟩]
      = (true, [⟨"Ana", "a@b.co"⟩, ⟨"Novo", "b@x.co"⟩]) :=
  ⟨(atualizar_usuario_spec.1 "z@z.co" (some "Novo") none [⟨"Ana", "a@b.co"⟩]).1
      (by decide),
   (atualizar_usuario_spec.1 "b@x.co" (some "Novo") none
        [⟨"Ana", "a@b.co"⟩, ⟨"Bia", "b@x.co"⟩]).2
      [⟨"Ana", "a@b.co"⟩] ⟨"Bia", "b@x.co"⟩ [] rfl (by decide) rfl⟩

/-- C6 (counterexample): the claim's round-trip law fails for a store
whose field contains a carriage return: the writer quotes `"A\rB"`
verbatim, but the load reopens the file without `newline=''`, so the
universal-newlines translation turns the `\r` into `\n` before the csv
reader sees it, and the record comes back changed. -/
theorem salvar_carregar_corrompe_cr :
    (carregar_usuarios [] (some (salvar_usuarios [⟨"A\rB", "x@y.co"⟩]))).1
      = [⟨"A\nB", "x@y.co"⟩] ∧
    (carregar_usuarios [] (some (salvar_usuarios [⟨"A\rB", "x@y.co"⟩]))).1
      ≠ [⟨"A\rB", "x@y.co"⟩] := by
  decide

/-- C6 (amended): saving in the delimited-table format and loading it back
reproduces, for every store and whatever was in memory before, the same
sequence of records in the same order with each field passed through the
read handle's universal-newlines translation (`\r\n` and lone `\r`
become `\n`); in particular the round trip is exact for every store
whose fields contain no carriage return — commas, quotes and bare
newlines included. -/
theorem salvar_carregar_round_trip_traduzido :
    ∀ (prev us : List Usuario),
      carregar_usuarios prev (some (salvar_usuarios us))
        = (us.map usuarioTraduzido, none) ∧
      ((∀ u ∈ us, '\r' ∉ u.nome.data ∧ '\r' ∉ u.email.data) →
        carregar_usuarios prev (some (salvar_usuarios us)) = (us, none)) := by
  intro prev us
  have hmain : carregar_usuarios prev (some (salvar_usuarios us))
      = (us.map usuarioTraduzido, none) := by
    rw [carregar_usuarios, carregarCsv_salvar]
  refine ⟨hmain, fun h => ?_⟩
  rw [hmain]
  have hid : us.map usuarioTraduzido = us := by
    rw [show us.map usuarioTraduzido = us.map id from
      List.map_congr_left fun u hu => usuarioTraduzido_sem_cr (h u hu).1 (h u hu).2]
    exact List.map_id us
  rw [hid]

/-- C6 (witness): the exact round trip at a store whose field holds a
comma, quotes and a bare newline but no carriage return. -/
theorem salvar_carregar_round_trip_traduzido_w :
    carregar_usuarios [⟨"Z", "z@z.co"⟩]
        (some (salvar_usuarios [⟨"Ana, \"A\"\nB", "a@b.co"⟩]))
      = ([⟨"Ana, \"A\"\nB", "a@b.co"⟩], none) :=
  (salvar_carregar_round_trip_traduzido [⟨"Z", "z@z.co"⟩]
      [⟨"Ana, \"A\"\nB", "a@b.co"⟩]).2 (by decide)

/-- C7: the claim says every choice of first name, surname and domain
letters yields a name and e-mail that pass the `create` validations, so
the store always grows by one.  The code's own name list contains
`"João"`; the derived e-mail `"joão.silva@abcdegmail.com"` contains `ã`,
which the e-mail pattern rejects, so `cadastrar_usuario` reports an
invalid e-mail and the store stays unchanged — the generated user is
never registered. -/
theorem gerar_usuario_aleatorio_joao_falha :
    "João" ∈ nomes ∧ "Silva" ∈ sobrenomes ∧
    gerar_email_aleatorio (gerar_nome_aleatorio "João" "Silva") "abcde".data
      = "joão.silva@abcdegmail.com" ∧
    validar_email "joão.silva@abcdegmail.com" = false ∧
    gerar_usuario_aleatorio "João" "Silva" "abcde".data [] []
      = some (.invalidEmail, []) := by
  decide

/-- C8: whenever the retry loop of `gerar_usuario_aleatorio` terminates,
the e-mail it hands to `cadastrar_usuario` differs from the e-mail of
every record already in the store. -/
theorem gerar_usuario_aleatorio_email_livre :
    ∀ (n s : String) (d0 : List Char) (ds : List (List Char))
      (us : List Usuario) (e : String),
      loopEmail (gerar_nome_aleatorio n s) us
          (gerar_email_aleatorio (gerar_nome_aleatorio n s) d0) ds = some e →
      (∀ u ∈ us, u.email ≠ e) ∧
      gerar_usuario_aleatorio n s d0 ds us
        = some (cadastrar_usuario (gerar_nome_aleatorio n s) e us) := by
  intro n s d0 ds us e h
  have hfree := loopEmail_livre (gerar_nome_aleatorio n s) us ds _ e h
  refine ⟨?_, ?_⟩
  · intro u hu heq
    have hx := List.any_eq_false.mp hfree u hu
    simp [heq] at hx
  · simp [gerar_usuario_aleatorio, h]

/-- C8 (witness): a terminating run over a concrete store; the generated
e-mail is fresh and is the one registered. -/
theorem gerar_usuario_aleatorio_email_livre_w :
    (∀ u ∈ [(⟨"Bia", "b@x.co"⟩ : Usuario)], u.email ≠ "ana.silva@abcdegmail.com") ∧
    gerar_usuario_aleatorio "Ana" "Silva" "abcde".data [] [⟨"Bia", "b@x.co"⟩]
      = some (cadastrar_usuario "Ana Silva" "ana.silva@abcdegmail.com"
          [⟨"Bia", "b@x.co"⟩]) :=
  gerar_usuario_aleatorio_email_livre "Ana" "Silva" "abcde".data [] [⟨"Bia", "b@x.co"⟩]
    "ana.silva@abcdegmail.com" (by decide)

/-- C9: `apagar_usuario` removes exactly the first record whose e-mail
equals the argument (case-sensitive), keeping all other records in their
relative order, and reports success; when no record matches it reports
failure and leaves the store unchanged. -/
theorem apagar_usuario_spec :
    ∀ (email : String) (us : List Usuario),
      ((∀ u ∈ us, u.email ≠ email) → apagar_usuario email us = (false, us)) ∧
      (∀ (pre : List Usuario) (u : Usuario) (post : List Usuario),
        us = pre ++ u :: post → (∀ v ∈ pre, v.email ≠ email) → u.email = email →
        apagar_usuario email us = (true, pre ++ post)) := by
  intro email us
  constructor
  · intro hall
    induction us with
    | nil => rfl
    | cons u rest ih =>
      have hu : u.email ≠ email := hall u (by simp)
      have hrest := ih fun v hv => hall v (by simp [hv])
      simp [apagar_usuario, hu, hrest]
  · intro pre u post hus hpre hu
    subst hus
    induction pre with
    | nil => simp [apagar_usuario, hu]
    | cons v pre ih =>
      have hv : v.email ≠ email := hpre v (by simp)
      have := ih fun w hw => hpre w (by simp [hw])
      simp [apagar_usuario, hv, this]

/-- C9 (witness): deletion of the first of two matching-position records
and the not-found case, at concrete stores. -/
theorem apagar_usuario_spec_w :
    apagar_usuario "b@x.co" [⟨"Ana", "a@b.co"⟩, ⟨"Bia", "b@x.co"⟩, ⟨"Caio", "c@d.co"⟩]
      = (true, [⟨"Ana", "a@b.co"⟩, ⟨"Caio", "c@d.co"⟩]) ∧
    apagar_usuario "z@z.co" [⟨"Ana", "a@b.co"⟩]
      = (false, [⟨"Ana", "a@b.co"⟩]) :=
  ⟨(apagar_usuario_spec "b@x.co"
        [⟨"Ana", "a@b.co"⟩, ⟨"Bia", "b@x.co"⟩, ⟨"Caio", "c@d.co"⟩]).2
      [⟨"Ana", "a@b.co"⟩] ⟨"Bia", "b@x.co"⟩ [⟨"Caio", "c@d.co"⟩] rfl (by decide) rfl,
   (apagar_usuario_spec "z@z.co" [⟨"Ana", "a@b.co"⟩]).1 (by decide)⟩

/-- C10 (counterexample): the claim asserts that the e-mail that passes
with a trailing newline (its example is `"a@b.co\n"`) fails with every
other trailing character; yet a trailing ASCII letter such as in
`"a@b.cox"` is also accepted, absorbed into the final label. -/
theorem validar_email_letra_final_aceita :
    validar_email "a@b.co\n" = true ∧ validar_email "a@b.cox" = true := by
  decide

/-- C10 (amended): `validar_email "a@b.co\n"` is true because `$` also
matches just before a final newline; for the same e-mail followed by any
other trailing character that is not an ASCII letter the result is false,
while a trailing ASCII letter is absorbed into the final label and also
accepted. -/
theorem validar_email_sufixo_spec :
    validar_email "a@b.co" = true ∧
    validar_email "a@b.co\n" = true ∧
    (∀ c : Char, c.isAlpha = false → c ≠ '\n' →
      validar_email ("a@b.co".push c) = false) ∧
    (∀ c : Char, c.isAlpha = true → validar_email ("a@b.co".push c) = true) :=
  ⟨by decide, by decide,
    fun c h1 h2 => validar_email_push_nao_letra "a@b.co" c h1 h2,
    validar_email_push_letra⟩

/-- C10 (witness): the amended statement applied at the trailing digit
`'7'` (rejected) and the trailing letter `'z'` (accepted). -/
theorem validar_email_sufixo_spec_w :
    validar_email ("a@b.co".push '7') = false ∧
    validar_email ("a@b.co".push 'z') = true :=
  ⟨validar_email_sufixo_spec.2.2.1 '7' (by decide) (by decide),
    validar_email_sufixo_spec.2.2.2 'z' (by decide)⟩

end Cadastro
